import Mathlib

/-!
Verification development for the bbx_audio engine boundary: the error-code
taxonomy shared by the two FFI headers, the engine lifecycle state machine,
the parameter table and MIDI event queue of the block processor, and the
RAII ownership discipline of the C++ `bbx::Graph` wrapper.

Shallow embedding conventions: C `uint8_t`/`uint32_t` values are `Nat`
(their ranges play no role in the claims below), `double`/`float` sample
and parameter values are `Rat` (no claim depends on floating-point
rounding), pointers that may be null are `Option`, and C functions that
mutate through a pointer are Lean functions returning the updated value.
-/

/- ======================================================================
   Error codes.
   `src/bbx_ffi/include/bbx_ffi.h` (the synthesis FFI) and
   `src/bbx_plugin/include/bbx_ffi.h` (the effects FFI) each define a C
   enum `BbxError`; we embed each header's enum separately, with the
   numbering given by that header.
   ====================================================================== -/

namespace Ffi

/-- Embedding of `enum BbxError` from `src/bbx_ffi/include/bbx_ffi.h`. -/
inductive BbxError where
  | ok
  | nullPointer
  | invalidParameter
  | invalidBufferSize
  | graphNotPrepared
  | allocationFailed
deriving DecidableEq, Repr

/-- Numeric value of each `BbxError` variant exactly as assigned in
`src/bbx_ffi/include/bbx_ffi.h` lines 58-65. -/
def BbxError.toCode : BbxError → Nat
  | .ok => 0
  | .nullPointer => 1
  | .invalidParameter => 2
  | .invalidBufferSize => 3
  | .graphNotPrepared => 4
  | .allocationFailed => 5

end Ffi

namespace Plugin

/-- Embedding of `enum BbxError` from `src/bbx_plugin/include/bbx_ffi.h`. -/
inductive BbxError where
  | ok
  | nullPointer
  | invalidParameter
  | invalidBufferSize
  | graphNotPrepared
  | allocationFailed
deriving DecidableEq, Repr

/-- Numeric value of each `BbxError` variant exactly as assigned in
`src/bbx_plugin/include/bbx_ffi.h` lines 21-28. -/
def BbxError.toCode : BbxError → Nat
  | .ok => 0
  | .nullPointer => 1
  | .invalidParameter => 2
  | .invalidBufferSize => 3
  | .graphNotPrepared => 4
  | .allocationFailed => 5

end Plugin

/-- The evident name-for-name correspondence between the synthesis FFI
error enum and the effects FFI error enum (`OK ↔ OK`, and so on). -/
def errCorresp : Ffi.BbxError → Plugin.BbxError
  | .ok => .ok
  | .nullPointer => .nullPointer
  | .invalidParameter => .invalidParameter
  | .invalidBufferSize => .invalidBufferSize
  | .graphNotPrepared => .graphNotPrepared
  | .allocationFailed => .allocationFailed

/- ======================================================================
   MIDI data types, from `src/bbx_plugin/include/bbx_ffi.h`.
   ====================================================================== -/

/-- Embedding of `enum BbxMidiStatus` (identical variant list to
`MidiMessageStatus` in the synthesis header). -/
inductive BbxMidiStatus where
  | unknown
  | noteOff
  | noteOn
  | polyphonicAftertouch
  | controlChange
  | programChange
  | channelAftertouch
  | pitchWheel
deriving DecidableEq, Repr

/-- Embedding of `struct BbxMidiMessage`: channel, status, two data bytes. -/
structure BbxMidiMessage where
  channel : Nat
  status : BbxMidiStatus
  data_1 : Nat
  data_2 : Nat
deriving DecidableEq, Repr

/-- Embedding of `struct BbxMidiEvent`: a MIDI message with a
sample-accurate offset into the upcoming block. -/
structure BbxMidiEvent where
  message : BbxMidiMessage
  sample_offset : Nat
deriving DecidableEq, Repr

/- ======================================================================
   Engine state and FFI operations.
   The Rust implementations behind `bbx_graph_create`, `bbx_graph_prepare`,
   `bbx_graph_reset`, `bbx_graph_process`, `bbx_graph_add_midi_events` and
   the parameter table are not part of the repository sources here (only
   their C declarations are), so they are modelled from the spec.
   ====================================================================== -/

/-- Embedding of `PARAM_COUNT` from `src/bbx_ffi/include/bbx_ffi.h`:
the fixed number of parameters in the synthesis deployment. -/
def PARAM_COUNT : Nat := 10

/-- Modelled from the spec: the Audio Specification bound by `prepare`
(sample-rate, block-size, channel-count), fixed for the lifetime of a
`Prepared` state. The implementation behind the FFI declarations is not
under the sources. -/
structure AudioSpec where
  sampleRate : Rat
  blockSize : Nat
  channelCount : Nat
deriving DecidableEq, Repr

/-- Modelled from the spec: the state behind a non-null `BbxGraph*` handle.
`spec = none` is the `Created` lifecycle state (no audio spec bound),
`spec = some a` is `Prepared` with specification `a`. `params` is the
Parameter Table, `midiQueue` the Event Queue of pending Timed Events, and
`transient` stands for the transient internal DSP node state (filter
memory, envelope phase) that `reset` clears. -/
structure FfiGraph where
  spec : Option AudioSpec
  params : List Rat
  midiQueue : List BbxMidiEvent
  transient : List Rat
deriving DecidableEq, Repr

/-- Modelled from the spec: `bbx_graph_create` returns a fresh handle in
the `Created` state with a full Parameter Table present (not sparse). -/
def bbx_graph_create : FfiGraph :=
  { spec := none
    params := List.replicate PARAM_COUNT 0
    midiQueue := []
    transient := [] }

/-- Modelled from the spec: `bbx_graph_prepare` on a non-null handle.
Fails with `InvalidBufferSize` when `buffer_size` or `num_channels` is
zero, leaving the handle untouched; otherwise binds the Audio
Specification, resets internal buffers, and transitions to `Prepared`
(re-invocable from `Prepared`). -/
def bbx_graph_prepare (g : FfiGraph) (sample_rate : Rat)
    (buffer_size num_channels : Nat) : Plugin.BbxError × FfiGraph :=
  if buffer_size = 0 ∨ num_channels = 0 then
    (.invalidBufferSize, g)
  else
    (.ok, { g with spec := some ⟨sample_rate, buffer_size, num_channels⟩, transient := [] })

/-- Modelled from the spec: `bbx_graph_reset` on a non-null handle.
Valid only once `Prepared` (else `GraphNotPrepared`); clears transient
internal state including queued events while preserving the Audio
Specification and the Parameter Table. -/
def bbx_graph_reset (g : FfiGraph) : Plugin.BbxError × FfiGraph :=
  match g.spec with
  | none => (.graphNotPrepared, g)
  | some _ => (.ok, { g with midiQueue := [], transient := [] })

/-- Modelled from the spec: `bbx_graph_add_midi_events` on a non-null
handle appends the pushed events to the Event Queue in insertion order
(a zero count is a no-op, not an error). The queue holds Timed Events;
the parameter-less C variant corresponds to events at offset 0. -/
def bbx_graph_add_midi_events (g : FfiGraph) (events : List BbxMidiEvent) :
    Ffi.BbxError × FfiGraph :=
  (.ok, { g with midiQueue := g.midiQueue ++ events })

/-- Modelled from the spec: the Parameter Table write. Rejects with
`InvalidParameter` when `index ≥ PARAM_COUNT`, leaving the table
unchanged; otherwise stores the value at that index. -/
def bbx_param_write (g : FfiGraph) (index : Nat) (value : Rat) :
    Ffi.BbxError × FfiGraph :=
  if PARAM_COUNT ≤ index then
    (.invalidParameter, g)
  else
    (.ok, { g with params := g.params.set index value })

/-- Ordering of Timed Events by their sample offset into the block. -/
def eventLe (a b : BbxMidiEvent) : Prop :=
  a.sample_offset ≤ b.sample_offset

instance : DecidableRel eventLe :=
  fun a b => Nat.decLe a.sample_offset b.sample_offset

instance : IsTotal BbxMidiEvent eventLe :=
  ⟨fun a b => Nat.le_total a.sample_offset b.sample_offset⟩

instance : IsTrans BbxMidiEvent eventLe :=
  ⟨fun _ _ _ h h2 => Nat.le_trans h h2⟩

/-- Result of one block-processing call: the updated engine state, the
output buffers written in place, and the sequence of Timed Events in the
order the Block Processor applied them to internal node state. -/
structure ProcessResult where
  graph : FfiGraph
  outputs : List (List Rat)
  applied : List BbxMidiEvent
deriving DecidableEq, Repr

/-- Modelled from the spec: `bbx_graph_process` on a non-null handle.
The call returns no error code. When the handle is not `Prepared`, or the
passed channel/sample counts mismatch the bound Audio Specification, the
outputs are zero-filled (safe silence) and no event touches node state.
Otherwise the pending Timed Events (queued plus per-call) are applied in
ascending sample-offset order, stably on ties, and the outputs are
produced by the DSP nodes (`render`, out of scope of this contract) from
the parameter snapshot, the inputs and the applied events. In every case
the Event Queue is drained at the end of the call. -/
def bbx_graph_process
    (render : List Rat → List (List Rat) → List BbxMidiEvent → List (List Rat))
    (g : FfiGraph) (inputs : List (List Rat)) (num_channels num_samples : Nat)
    (paramArray : List Rat) (midi_events : List BbxMidiEvent) : ProcessResult :=
  match g.spec with
  | none =>
      { graph := { g with midiQueue := [] }
        outputs := List.replicate num_channels (List.replicate num_samples 0)
        applied := [] }
  | some a =>
      if num_channels = a.channelCount ∧ num_samples = a.blockSize then
        let pending := List.insertionSort eventLe (g.midiQueue ++ midi_events)
        { graph := { g with midiQueue := [] }
          outputs := render paramArray inputs pending
          applied := pending }
      else
        { graph := { g with midiQueue := [] }
          outputs := List.replicate num_channels (List.replicate num_samples 0)
          applied := [] }

/- ======================================================================
   The C++ RAII wrapper `bbx::Graph`, from
   `src/bbx_plugin/include/bbx_graph.h`. The pointee of a non-null
   `m_handle` is modelled by its `FfiGraph` state; results record whether
   the underlying FFI call was invoked at all.
   ====================================================================== -/

/-- Embedding of the data of `class bbx::Graph`: the single member
`BbxGraph* m_handle`, which may be null. -/
structure Graph where
  m_handle : Option FfiGraph
deriving DecidableEq, Repr

/-- Embedding of `bbx::Graph::IsValid`: true when the wrapper holds a
non-null handle. -/
def Graph.IsValid (g : Graph) : Bool :=
  g.m_handle.isSome

/-- Result of `bbx::Graph::Prepare` or `bbx::Graph::Reset`: the returned
error code, the wrapper state afterwards, and whether the underlying FFI
function was invoked. -/
structure WrapperCallResult where
  code : Plugin.BbxError
  graph : Graph
  ffiInvoked : Bool
deriving DecidableEq, Repr

/-- Embedding of `bbx::Graph::Prepare` (bbx_graph.h lines 62-68): returns
`BBX_ERROR_NULL_POINTER` when `m_handle` is null, otherwise forwards to
`bbx_graph_prepare`. -/
def Graph.Prepare (g : Graph) (sampleRate : Rat) (bufferSize numChannels : Nat) :
    WrapperCallResult :=
  match g.m_handle with
  | none => ⟨.nullPointer, g, false⟩
  | some h =>
      let r := bbx_graph_prepare h sampleRate bufferSize numChannels
      ⟨r.1, ⟨some r.2⟩, true⟩

/-- Embedding of `bbx::Graph::Reset` (bbx_graph.h lines 75-81): returns
`BBX_ERROR_NULL_POINTER` when `m_handle` is null, otherwise forwards to
`bbx_graph_reset`. -/
def Graph.Reset (g : Graph) : WrapperCallResult :=
  match g.m_handle with
  | none => ⟨.nullPointer, g, false⟩
  | some h =>
      let r := bbx_graph_reset h
      ⟨r.1, ⟨some r.2⟩, true⟩

/-- Result of `bbx::Graph::Process`: the wrapper state afterwards, the
output buffers as the call leaves them, and whether `bbx_graph_process`
was invoked. The member function itself returns nothing. -/
structure WrapperProcessResult where
  graph : Graph
  outputs : List (List Rat)
  ffiInvoked : Bool
deriving DecidableEq, Repr

/-- Embedding of `bbx::Graph::Process` (bbx_graph.h lines 95-107): when
`m_handle` is null the body does nothing at all (the output buffers are
left exactly as they were and no FFI call is made); otherwise it forwards
every argument to `bbx_graph_process`, which writes the outputs. -/
def Graph.Process
    (render : List Rat → List (List Rat) → List BbxMidiEvent → List (List Rat))
    (g : Graph) (inputs outputs : List (List Rat)) (numChannels numSamples : Nat)
    (params : List Rat) (midiEvents : List BbxMidiEvent) : WrapperProcessResult :=
  match g.m_handle with
  | none => ⟨g, outputs, false⟩
  | some h =>
      let r := bbx_graph_process render h inputs numChannels numSamples params midiEvents
      ⟨⟨some r.graph⟩, r.outputs, true⟩

/- ======================================================================
   Ownership discipline of `bbx::Graph` (bbx_graph.h lines 17-52).
   Copy construction and copy assignment are deleted in the source, so a
   program over wrappers can only default-construct, destruct, move-
   construct, and move-assign; each operation below embeds the body of
   the corresponding special member. Wrapper objects are identified by an
   id; `alive` maps each live object to its `m_handle` (null or a handle
   number, numbered in order of successful `bbx_graph_create` calls), and
   `destroyLog` records every `bbx_graph_destroy` invocation.
   ====================================================================== -/

/-- Lookup of a live object by id in the association list of live
wrapper objects. -/
def lookupObj : List (Nat × Option Nat) → Nat → Option (Option Nat)
  | [], _ => none
  | p :: rest, oid => if p.1 = oid then some p.2 else lookupObj rest oid

/-- Overwrite the handle stored by the live object `oid`. -/
def setObj : List (Nat × Option Nat) → Nat → Option Nat → List (Nat × Option Nat)
  | [], _, _ => []
  | p :: rest, oid, v => if p.1 = oid then (oid, v) :: rest else p :: setObj rest oid v

/-- Remove the live object `oid` (its storage ends). -/
def eraseObj : List (Nat × Option Nat) → Nat → List (Nat × Option Nat)
  | [], _ => []
  | p :: rest, oid => if p.1 = oid then rest else p :: eraseObj rest oid

/-- State of a program over `bbx::Graph` wrappers: the live objects with
their handles, the number of handles created so far, and the log of
handles passed to `bbx_graph_destroy`. -/
structure OwnerState where
  alive : List (Nat × Option Nat)
  nextHandle : Nat
  destroyLog : List Nat
deriving DecidableEq, Repr

/-- The operations a client can perform on `bbx::Graph` wrapper objects;
copy construction and copy assignment do not appear because the source
deletes them. `construct` with `allocOk = false` models
`bbx_graph_create` returning null. -/
inductive OwnerOp where
  | construct (oid : Nat) (allocOk : Bool)
  | destruct (oid : Nat)
  | moveConstruct (newOid srcOid : Nat)
  | moveAssign (dstOid srcOid : Nat)
deriving DecidableEq, Repr

/-- One C++ special-member invocation, embedding the bodies in
bbx_graph.h: the default constructor stores the result of
`bbx_graph_create`; the destructor destroys a non-null handle; the move
constructor takes the source's handle and nulls the source; move
assignment checks self-assignment, destroys the target's non-null
handle, takes the source's handle and nulls the source. `none` marks an
invalid program action (using a dead object id, constructing over a live
one), not engine behavior. -/
def step (s : OwnerState) : OwnerOp → Option OwnerState
  | .construct oid allocOk =>
      match lookupObj s.alive oid with
      | some _ => none
      | none =>
          if allocOk then
            some ⟨(oid, some s.nextHandle) :: s.alive, s.nextHandle + 1, s.destroyLog⟩
          else
            some ⟨(oid, none) :: s.alive, s.nextHandle, s.destroyLog⟩
  | .destruct oid =>
      match lookupObj s.alive oid with
      | none => none
      | some v =>
          some ⟨eraseObj s.alive oid, s.nextHandle,
                match v with
                | some n => n :: s.destroyLog
                | none => s.destroyLog⟩
  | .moveConstruct newOid srcOid =>
      match lookupObj s.alive newOid, lookupObj s.alive srcOid with
      | none, some v =>
          some ⟨(newOid, v) :: setObj s.alive srcOid none, s.nextHandle, s.destroyLog⟩
      | _, _ => none
  | .moveAssign dstOid srcOid =>
      match lookupObj s.alive dstOid, lookupObj s.alive srcOid with
      | some vd, some vs =>
          if dstOid = srcOid then some s
          else
            some ⟨setObj (setObj s.alive dstOid vs) srcOid none, s.nextHandle,
                  match vd with
                  | some n => n :: s.destroyLog
                  | none => s.destroyLog⟩
      | _, _ => none

/-- The empty initial state: no objects, no handles, no destroy calls. -/
def initState : OwnerState :=
  ⟨[], 0, []⟩

/-- Run a whole program of wrapper operations. -/
def run (s : OwnerState) : List OwnerOp → Option OwnerState
  | [] => some s
  | op :: ops =>
      match step s op with
      | none => none
      | some s2 => run s2 ops

/-- How many live objects currently own the handle `h`. -/
def countH (l : List (Nat × Option Nat)) (h : Nat) : Nat :=
  (l.filterMap (fun p => p.2)).count h

/-- Contribution of one nullable handle field to the owner count of `h`. -/
def optCount (v : Option Nat) (h : Nat) : Nat :=
  match v with
  | some n => if n = h then 1 else 0
  | none => 0

/-- The ownership invariant: every handle ever created is, at any moment,
either owned by exactly one live object or destroyed exactly once — and
handles never created are neither owned nor destroyed. -/
def OwnerInv (s : OwnerState) : Prop :=
  ∀ h : Nat, countH s.alive h + s.destroyLog.count h =
    if h < s.nextHandle then 1 else 0

/- Helper lemmas for the ownership invariant. -/

theorem optCount_none (h : Nat) : optCount none h = 0 := rfl

theorem optCount_some (n h : Nat) : optCount (some n) h = if n = h then 1 else 0 := rfl

theorem countH_cons (p : Nat × Option Nat) (l : List (Nat × Option Nat)) (h : Nat) :
    countH (p :: l) h = optCount p.2 h + countH l h := by
  cases hp : p.2 with
  | none => simp [countH, optCount, hp]
  | some n =>
      simp only [countH, List.filterMap_cons, hp, optCount, List.count_cons, beq_iff_eq]
      split_ifs <;> omega

theorem countH_setObj (l : List (Nat × Option Nat)) (oid : Nat) (v w : Option Nat) (h : Nat)
    (hl : lookupObj l oid = some v) :
    countH (setObj l oid w) h + optCount v h = countH l h + optCount w h := by
  induction l with
  | nil => simp [lookupObj] at hl
  | cons p rest ih =>
      obtain ⟨a, b⟩ := p
      by_cases hp : a = oid
      · subst hp
        simp only [lookupObj, eq_self_iff_true, if_true, Option.some.injEq] at hl
        subst hl
        simp only [setObj, eq_self_iff_true, if_true, countH_cons]
        omega
      · simp only [lookupObj, if_neg hp] at hl
        simp only [setObj, if_neg hp, countH_cons]
        have := ih hl
        omega

theorem countH_eraseObj (l : List (Nat × Option Nat)) (oid : Nat) (v : Option Nat) (h : Nat)
    (hl : lookupObj l oid = some v) :
    countH (eraseObj l oid) h + optCount v h = countH l h := by
  induction l with
  | nil => simp [lookupObj] at hl
  | cons p rest ih =>
      obtain ⟨a, b⟩ := p
      by_cases hp : a = oid
      · subst hp
        simp only [lookupObj, eq_self_iff_true, if_true, Option.some.injEq] at hl
        subst hl
        simp only [eraseObj, eq_self_iff_true, if_true, countH_cons]
        omega
      · simp only [lookupObj, if_neg hp] at hl
        simp only [eraseObj, if_neg hp, countH_cons]
        have := ih hl
        omega

theorem lookupObj_setObj_ne (l : List (Nat × Option Nat)) (k1 k2 : Nat) (w : Option Nat)
    (hne : k1 ≠ k2) : lookupObj (setObj l k2 w) k1 = lookupObj l k1 := by
  induction l with
  | nil => simp [setObj]
  | cons p rest ih =>
      obtain ⟨a, b⟩ := p
      by_cases hp : a = k2
      · subst hp
        rw [setObj, if_pos rfl, lookupObj, lookupObj, if_neg (Ne.symm hne), if_neg (Ne.symm hne)]
      · rw [setObj, if_neg hp, lookupObj, lookupObj]
        by_cases hk : a = k1
        · simp [hk]
        · simp [hk, ih]

theorem step_inv (s s2 : OwnerState) (op : OwnerOp)
    (hI : OwnerInv s) (hs : step s op = some s2) : OwnerInv s2 := by
  cases op with
  | construct oid allocOk =>
      cases hlk : lookupObj s.alive oid with
      | some v => simp [step, hlk] at hs
      | none =>
          cases allocOk with
          | true =>
              simp only [step, hlk, if_true, Option.some.injEq] at hs
              subst hs
              intro h
              dsimp only
              simp only [countH_cons, optCount_some]
              have h1 := hI h
              split_ifs at h1 ⊢ <;> omega
          | false =>
              simp only [step, hlk, Bool.false_eq_true, if_false, Option.some.injEq] at hs
              subst hs
              intro h
              dsimp only
              simp only [countH_cons, optCount_none]
              have h1 := hI h
              split_ifs at h1 ⊢ <;> omega
  | destruct oid =>
      cases hlk : lookupObj s.alive oid with
      | none => simp [step, hlk] at hs
      | some v =>
          simp only [step, hlk, Option.some.injEq] at hs
          subst hs
          intro h
          dsimp only
          have h1 := hI h
          have he := countH_eraseObj s.alive oid v h hlk
          cases v with
          | none =>
              simp only [optCount_none] at he
              dsimp only
              omega
          | some n =>
              simp only [optCount_some] at he
              dsimp only
              simp only [List.count_cons, beq_iff_eq]
              split_ifs at he h1 ⊢ <;> omega
  | moveConstruct newOid srcOid =>
      cases hln : lookupObj s.alive newOid with
      | some v => simp [step, hln] at hs
      | none =>
          cases hls : lookupObj s.alive srcOid with
          | none => simp [step, hln, hls] at hs
          | some v =>
              simp only [step, hln, hls, Option.some.injEq] at hs
              subst hs
              intro h
              dsimp only
              simp only [countH_cons]
              have hset := countH_setObj s.alive srcOid v none h hls
              simp only [optCount_none] at hset
              have h1 := hI h
              omega
  | moveAssign dstOid srcOid =>
      cases hld : lookupObj s.alive dstOid with
      | none => simp [step, hld] at hs
      | some vd =>
          cases hls : lookupObj s.alive srcOid with
          | none => simp [step, hld, hls] at hs
          | some vs =>
              by_cases heq : dstOid = srcOid
              · simp only [step, hld, hls, if_pos heq, Option.some.injEq] at hs
                subst hs
                exact hI
              · simp only [step, hld, hls, if_neg heq, Option.some.injEq] at hs
                subst hs
                intro h
                dsimp only
                have hset1 := countH_setObj s.alive dstOid vd vs h hld
                have hls2 : lookupObj (setObj s.alive dstOid vs) srcOid = some vs := by
                  rw [lookupObj_setObj_ne s.alive srcOid dstOid vs (fun hh => heq hh.symm)]
                  exact hls
                have hset2 :=
                  countH_setObj (setObj s.alive dstOid vs) srcOid vs none h hls2
                simp only [optCount_none] at hset2
                have h1 := hI h
                cases vd with
                | none =>
                    simp only [optCount_none] at hset1
                    dsimp only
                    omega
                | some n =>
                    simp only [optCount_some] at hset1
                    dsimp only
                    simp only [List.count_cons, beq_iff_eq]
                    split_ifs at hset1 h1 ⊢ <;> omega

theorem run_inv (ops : List OwnerOp) (s s2 : OwnerState)
    (hI : OwnerInv s) (hr : run s ops = some s2) : OwnerInv s2 := by
  induction ops generalizing s with
  | nil =>
      simp only [run, Option.some.injEq] at hr
      subst hr
      exact hI
  | cons op ops ih =>
      simp only [run] at hr
      cases hstep : step s op with
      | none => rw [hstep] at hr; exact absurd hr (by simp)
      | some s3 =>
          rw [hstep] at hr
          exact ih s3 (step_inv s s3 op hI hstep) hr

theorem initState_inv : OwnerInv initState := by
  intro h
  simp [initState, countH]

theorem lookupObj_setObj_same (l : List (Nat × Option Nat)) (k : Nat) (v w : Option Nat)
    (hl : lookupObj l k = some v) :
    lookupObj (setObj l k w) k = some w := by
  induction l with
  | nil => simp [lookupObj] at hl
  | cons p rest ih =>
      obtain ⟨a, b⟩ := p
      by_cases hp : a = k
      · subst hp
        simp [setObj, lookupObj]
      · simp only [lookupObj, if_neg hp] at hl
        simp [setObj, lookupObj, hp, ih hl]

/- ======================================================================
   Stability of the Block Processor's event ordering: filtering the
   insertion-sorted event list at any fixed sample offset returns the
   events of that offset in their original push order.
   ====================================================================== -/

theorem filter_orderedInsert_offset (k : Nat) (a : BbxMidiEvent) (l : List BbxMidiEvent) :
    (List.orderedInsert eventLe a l).filter (fun e => e.sample_offset == k) =
      if a.sample_offset = k then
        a :: l.filter (fun e => e.sample_offset == k)
      else l.filter (fun e => e.sample_offset == k) := by
  induction l with
  | nil =>
      by_cases hpa : a.sample_offset = k <;>
        simp [List.orderedInsert, List.filter_cons, hpa]
  | cons b l ih =>
      by_cases hab : eventLe a b
      · rw [List.orderedInsert, if_pos hab]
        by_cases hpa : a.sample_offset = k <;>
          simp [List.filter_cons, hpa]
      · rw [List.orderedInsert, if_neg hab]
        have hne : ¬(a.sample_offset = k ∧ b.sample_offset = k) := by
          rintro ⟨h1, h2⟩
          exact hab (by simp [eventLe, h1, h2])
        by_cases hpb : b.sample_offset = k
        · have hpa : ¬a.sample_offset = k := fun hh => hne ⟨hh, hpb⟩
          simp [List.filter_cons, hpb, hpa, ih]
        · by_cases hpa : a.sample_offset = k <;>
            simp [List.filter_cons, hpb, hpa, ih]

theorem filter_insertionSort_offset (k : Nat) (l : List BbxMidiEvent) :
    (List.insertionSort eventLe l).filter (fun e => e.sample_offset == k) =
      l.filter (fun e => e.sample_offset == k) := by
  induction l with
  | nil => rfl
  | cons a l ih =>
      rw [List.insertionSort, filter_orderedInsert_offset]
      by_cases hpa : a.sample_offset = k <;> simp [List.filter_cons, hpa, ih]

/- ======================================================================
   Accumulating control-rate pushes before one processing call.
   ====================================================================== -/

/-- A sequence of control-rate `bbx_graph_add_midi_events` calls, in push
order. -/
def pushAll (g : FfiGraph) (batches : List (List BbxMidiEvent)) : FfiGraph :=
  batches.foldl (fun h b => (bbx_graph_add_midi_events h b).2) g

theorem pushAll_midiQueue (g : FfiGraph) (batches : List (List BbxMidiEvent)) :
    (pushAll g batches).midiQueue = g.midiQueue ++ batches.flatten := by
  induction batches generalizing g with
  | nil => simp [pushAll]
  | cons b bs ih =>
      have := ih (bbx_graph_add_midi_events g b).2
      simp only [pushAll, List.foldl_cons] at this ⊢
      rw [this]
      simp [bbx_graph_add_midi_events, List.append_assoc]

theorem pushAll_spec (g : FfiGraph) (batches : List (List BbxMidiEvent)) :
    (pushAll g batches).spec = g.spec := by
  induction batches generalizing g with
  | nil => simp [pushAll]
  | cons b bs ih =>
      have := ih (bbx_graph_add_midi_events g b).2
      simp only [pushAll, List.foldl_cons] at this ⊢
      rw [this]
      simp [bbx_graph_add_midi_events]

/- ======================================================================
   Claim theorems.
   ====================================================================== -/

/-- C7: The shared error-code taxonomy is numbered exactly OK=0,
NullPointer=1, InvalidParameter=2, InvalidBufferSize=3,
GraphNotPrepared=4, AllocationFailed=5, and the synthesis FFI enum and
the effects FFI enum carry this identical numbering, variant for
variant. -/
theorem error_code_taxonomy_shared :
    (Ffi.BbxError.toCode .ok = 0 ∧
     Ffi.BbxError.toCode .nullPointer = 1 ∧
     Ffi.BbxError.toCode .invalidParameter = 2 ∧
     Ffi.BbxError.toCode .invalidBufferSize = 3 ∧
     Ffi.BbxError.toCode .graphNotPrepared = 4 ∧
     Ffi.BbxError.toCode .allocationFailed = 5) ∧
    (Plugin.BbxError.toCode .ok = 0 ∧
     Plugin.BbxError.toCode .nullPointer = 1 ∧
     Plugin.BbxError.toCode .invalidParameter = 2 ∧
     Plugin.BbxError.toCode .invalidBufferSize = 3 ∧
     Plugin.BbxError.toCode .graphNotPrepared = 4 ∧
     Plugin.BbxError.toCode .allocationFailed = 5) ∧
    (∀ e : Ffi.BbxError,
      Plugin.BbxError.toCode (errCorresp e) = Ffi.BbxError.toCode e) :=
  ⟨⟨rfl, rfl, rfl, rfl, rfl, rfl⟩, ⟨rfl, rfl, rfl, rfl, rfl, rfl⟩,
   fun e => by cases e <;> rfl⟩

/-- C2: The block-processing call returns no error code (its result type
carries none), and a process call on a handle on which prepare has never
succeeded writes all-zero samples into every output buffer, for any
non-degenerate channel and sample counts. -/
theorem process_before_prepare_zero_fills
    (render : List Rat → List (List Rat) → List BbxMidiEvent → List (List Rat))
    (g : FfiGraph) (inputs : List (List Rat)) (num_channels num_samples : Nat)
    (paramArray : List Rat) (midi_events : List BbxMidiEvent)
    (hunprep : g.spec = none) (hc : 0 < num_channels) (hs : 0 < num_samples) :
    (bbx_graph_process render g inputs num_channels num_samples
        paramArray midi_events).outputs =
      List.replicate num_channels (List.replicate num_samples (0 : Rat)) ∧
    ∀ ch ∈ (bbx_graph_process render g inputs num_channels num_samples
        paramArray midi_events).outputs, ∀ x ∈ ch, x = (0 : Rat) := by
  have hmain :
      (bbx_graph_process render g inputs num_channels num_samples
          paramArray midi_events).outputs =
        List.replicate num_channels (List.replicate num_samples (0 : Rat)) := by
    simp [bbx_graph_process, hunprep]
  refine ⟨hmain, ?_⟩
  intro ch hch x hx
  rw [hmain] at hch
  have hch2 := List.eq_of_mem_replicate hch
  subst hch2
  exact List.eq_of_mem_replicate hx

def renderSilence : List Rat → List (List Rat) → List BbxMidiEvent → List (List Rat) :=
  fun _ _ _ => []

theorem process_before_prepare_zero_fills_witness :
    bbx_graph_create.spec = none ∧
    (bbx_graph_process renderSilence bbx_graph_create [] 2 4 [] []).outputs =
      List.replicate 2 (List.replicate 4 (0 : Rat)) :=
  ⟨rfl,
   (process_before_prepare_zero_fills renderSilence bbx_graph_create [] 2 4 [] []
      rfl (by decide) (by decide)).1⟩

/-- C4: For every handle state and sample rate, prepare with a zero
block size or zero channel count returns `InvalidBufferSize` and leaves
the handle exactly as it was (same lifecycle state, same bound Audio
Specification). -/
theorem prepare_zero_size_rejected (g : FfiGraph) (sample_rate : Rat)
    (buffer_size num_channels : Nat)
    (hz : buffer_size = 0 ∨ num_channels = 0) :
    bbx_graph_prepare g sample_rate buffer_size num_channels =
      (Plugin.BbxError.invalidBufferSize, g) := by
  simp [bbx_graph_prepare, hz]

def gPrepared : FfiGraph :=
  { spec := some ⟨48000, 8, 2⟩
    params := List.replicate PARAM_COUNT 0
    midiQueue := []
    transient := [] }

theorem prepare_zero_size_rejected_witness :
    bbx_graph_prepare gPrepared 44100 0 2 =
      (Plugin.BbxError.invalidBufferSize, gPrepared) ∧
    bbx_graph_prepare bbx_graph_create 44100 256 0 =
      (Plugin.BbxError.invalidBufferSize, bbx_graph_create) :=
  ⟨prepare_zero_size_rejected gPrepared 44100 0 2 (Or.inl rfl),
   prepare_zero_size_rejected bbx_graph_create 44100 256 0 (Or.inr rfl)⟩

/-- C5: Reset on a handle that is not `Prepared` returns
`GraphNotPrepared` and changes nothing; reset on a `Prepared` handle
returns `OK`, clears the transient state and the queued events, and
preserves the bound Audio Specification (and the Parameter Table). -/
theorem reset_contract (g : FfiGraph) :
    (g.spec = none → bbx_graph_reset g = (Plugin.BbxError.graphNotPrepared, g)) ∧
    (∀ a, g.spec = some a →
      bbx_graph_reset g =
        (Plugin.BbxError.ok, { g with midiQueue := [], transient := [] })) := by
  constructor
  · intro h
    simp [bbx_graph_reset, h]
  · intro a h
    simp [bbx_graph_reset, h]

theorem reset_contract_witness :
    bbx_graph_reset bbx_graph_create = (Plugin.BbxError.graphNotPrepared, bbx_graph_create) ∧
    bbx_graph_reset gPrepared = (Plugin.BbxError.ok, gPrepared) ∧
    gPrepared.spec = some ⟨48000, 8, 2⟩ :=
  ⟨(reset_contract bbx_graph_create).1 rfl,
   (reset_contract gPrepared).2 ⟨48000, 8, 2⟩ rfl,
   rfl⟩

/-- C8: In the synthesis deployment the parameter count is fixed at
`PARAM_COUNT = 10`; a parameter write with index at least `PARAM_COUNT`
fails with `InvalidParameter` and leaves the Parameter Table (and the
whole handle) unchanged, while a write below `PARAM_COUNT` succeeds and
stores the value at that index. -/
theorem param_write_bounds (g : FfiGraph) (index : Nat) (value : Rat) :
    PARAM_COUNT = 10 ∧
    (PARAM_COUNT ≤ index →
      bbx_param_write g index value = (Ffi.BbxError.invalidParameter, g)) ∧
    (index < PARAM_COUNT →
      bbx_param_write g index value =
        (Ffi.BbxError.ok, { g with params := g.params.set index value })) := by
  refine ⟨rfl, ?_, ?_⟩
  · intro h
    simp [bbx_param_write, h]
  · intro h
    simp [bbx_param_write, Nat.not_le.mpr h]

theorem param_write_bounds_witness :
    bbx_param_write bbx_graph_create 10 1 = (Ffi.BbxError.invalidParameter, bbx_graph_create) ∧
    bbx_param_write bbx_graph_create 3 1 =
      (Ffi.BbxError.ok,
        { bbx_graph_create with params := bbx_graph_create.params.set 3 1 }) :=
  ⟨(param_write_bounds bbx_graph_create 10 1).2.1 (by decide),
   (param_write_bounds bbx_graph_create 3 1).2.2 (by decide)⟩

/-- C6: `bbx::Graph::Prepare` on a wrapper whose internal handle is null
returns `NullPointer`, leaves the wrapper unchanged, and does not invoke
the underlying FFI prepare, for every combination of arguments. -/
theorem wrapper_prepare_null_handle (g : Graph) (sampleRate : Rat)
    (bufferSize numChannels : Nat) (hnull : g.m_handle = none) :
    g.Prepare sampleRate bufferSize numChannels =
      ⟨Plugin.BbxError.nullPointer, g, false⟩ := by
  simp [Graph.Prepare, hnull]

theorem wrapper_prepare_null_handle_witness :
    Graph.Prepare ⟨none⟩ 48000 256 2 = ⟨Plugin.BbxError.nullPointer, ⟨none⟩, false⟩ :=
  wrapper_prepare_null_handle ⟨none⟩ 48000 256 2 rfl

/-- C9: `bbx::Graph::Process` on a wrapper whose internal handle is null
is a complete no-op: it does not invoke the FFI process call and returns
the output buffers bit-for-bit as they were handed in (in particular it
does not zero-fill them). -/
theorem wrapper_process_null_handle_noop
    (render : List Rat → List (List Rat) → List BbxMidiEvent → List (List Rat))
    (g : Graph) (inputs outputs : List (List Rat)) (numChannels numSamples : Nat)
    (params : List Rat) (midiEvents : List BbxMidiEvent)
    (hnull : g.m_handle = none) :
    g.Process render inputs outputs numChannels numSamples params midiEvents =
      ⟨g, outputs, false⟩ := by
  simp [Graph.Process, hnull]

theorem wrapper_process_null_handle_noop_witness :
    Graph.Process renderSilence ⟨none⟩ [] [[1, 2]] 1 2 [] [] =
      ⟨⟨none⟩, [[1, 2]], false⟩ ∧
    ([[(1 : Rat), 2]] ≠ [[0, 0]]) :=
  ⟨wrapper_process_null_handle_noop renderSilence ⟨none⟩ [] [[1, 2]] 1 2 [] [] rfl,
   by decide⟩

/-- C3: For every set of timed events pushed in any order (any sequence
of batches) before one process call on a prepared handle, the Block
Processor applies them to internal node state in non-decreasing
sample-offset order (the applied sequence is sorted by offset), preserves
push order among events with equal offsets (filtering the applied
sequence at any offset returns exactly the pushed events of that offset
in push order), and after the call the pending event queue is empty. -/
theorem midi_events_applied_sorted_stably_and_drained
    (render : List Rat → List (List Rat) → List BbxMidiEvent → List (List Rat))
    (g : FfiGraph) (a : AudioSpec) (batches : List (List BbxMidiEvent))
    (inputs : List (List Rat)) (paramArray : List Rat)
    (hq : g.midiQueue = []) (hprep : g.spec = some a) :
    List.Sorted eventLe
      (bbx_graph_process render (pushAll g batches) inputs a.channelCount a.blockSize
        paramArray []).applied ∧
    (∀ k, (bbx_graph_process render (pushAll g batches) inputs a.channelCount a.blockSize
        paramArray []).applied.filter (fun e => e.sample_offset == k) =
      batches.flatten.filter (fun e => e.sample_offset == k)) ∧
    (bbx_graph_process render (pushAll g batches) inputs a.channelCount a.blockSize
        paramArray []).graph.midiQueue = [] := by
  have hqueue : (pushAll g batches).midiQueue = batches.flatten := by
    rw [pushAll_midiQueue, hq, List.nil_append]
  have hspec : (pushAll g batches).spec = some a := by
    rw [pushAll_spec, hprep]
  have hproc :
      bbx_graph_process render (pushAll g batches) inputs a.channelCount a.blockSize
          paramArray [] =
        { graph := { pushAll g batches with midiQueue := [] }
          outputs := render paramArray inputs (List.insertionSort eventLe batches.flatten)
          applied := List.insertionSort eventLe batches.flatten } := by
    simp [bbx_graph_process, hspec, hqueue]
  rw [hproc]
  exact ⟨List.sorted_insertionSort eventLe batches.flatten,
         fun k => filter_insertionSort_offset k batches.flatten,
         rfl⟩

def evAt (off : Nat) : BbxMidiEvent :=
  ⟨⟨0, .noteOn, 60, 100⟩, off⟩

theorem midi_events_applied_sorted_stably_and_drained_witness :
    List.Sorted eventLe
      (bbx_graph_process renderSilence (pushAll gPrepared [[evAt 5], [evAt 1, evAt 3]])
        [] 2 8 [] []).applied ∧
    (bbx_graph_process renderSilence (pushAll gPrepared [[evAt 5], [evAt 1, evAt 3]])
        [] 2 8 [] []).applied = [evAt 1, evAt 3, evAt 5] ∧
    (bbx_graph_process renderSilence (pushAll gPrepared [[evAt 5], [evAt 1, evAt 3]])
        [] 2 8 [] []).graph.midiQueue = [] :=
  ⟨(midi_events_applied_sorted_stably_and_drained renderSilence gPrepared ⟨48000, 8, 2⟩
      [[evAt 5], [evAt 1, evAt 3]] [] [] rfl rfl).1,
   by decide,
   (midi_events_applied_sorted_stably_and_drained renderSilence gPrepared ⟨48000, 8, 2⟩
      [[evAt 5], [evAt 1, evAt 3]] [] [] rfl rfl).2.2⟩

/-- C1: The `bbx::Graph` handle is an exclusively-owned, move-only
resource: in any program of constructions, moves and destructions of
wrapper objects (copying is impossible, the source deletes it), a move —
construction or assignment — transfers the raw handle to the target
object and leaves the source holding null, and once every wrapper object
has been destructed, `bbx_graph_destroy` has been invoked exactly once
for each non-null handle obtained from `bbx_graph_create` — never twice
and never zero times. -/
theorem graph_move_only_exactly_once
    (ops : List OwnerOp) (s : OwnerState)
    (hrun : run initState ops = some s) (hdone : s.alive = []) :
    (∀ h, h < s.nextHandle → s.destroyLog.count h = 1) ∧
    (∀ t t2 newOid srcOid v,
        step t (.moveConstruct newOid srcOid) = some t2 →
        lookupObj t.alive srcOid = some v →
        lookupObj t2.alive newOid = some v ∧
        lookupObj t2.alive srcOid = some none) ∧
    (∀ t t2 dstOid srcOid v,
        dstOid ≠ srcOid →
        step t (.moveAssign dstOid srcOid) = some t2 →
        lookupObj t.alive srcOid = some v →
        lookupObj t2.alive dstOid = some v ∧
        lookupObj t2.alive srcOid = some none) := by
  refine ⟨?_, ?_, ?_⟩
  · intro h hlt
    have hinv := run_inv ops initState s initState_inv hrun
    have hh := hinv h
    rw [hdone, if_pos hlt] at hh
    have hzero : countH ([] : List (Nat × Option Nat)) h = 0 := rfl
    omega
  · intro t t2 newOid srcOid v hstep hlsrc
    cases hln : lookupObj t.alive newOid with
    | some w => simp [step, hln] at hstep
    | none =>
        simp only [step, hln, hlsrc, Option.some.injEq] at hstep
        subst hstep
        have hne : srcOid ≠ newOid := by
          intro hh
          subst hh
          rw [hln] at hlsrc
          exact Option.noConfusion hlsrc
        have h9 : ¬(newOid = srcOid) := fun hh => hne hh.symm
        constructor
        · dsimp only
          simp [lookupObj]
        · dsimp only
          simp [lookupObj, h9, lookupObj_setObj_same t.alive srcOid v none hlsrc]
  · intro t t2 dstOid srcOid v hne hstep hlsrc
    cases hld : lookupObj t.alive dstOid with
    | none => simp [step, hld] at hstep
    | some vd =>
        simp only [step, hld, hlsrc, if_neg hne, Option.some.injEq] at hstep
        subst hstep
        dsimp only
        have hX : lookupObj (setObj t.alive dstOid v) srcOid = some v := by
          rw [lookupObj_setObj_ne t.alive srcOid dstOid v (fun hh => hne hh.symm)]
          exact hlsrc
        constructor
        · rw [lookupObj_setObj_ne (setObj t.alive dstOid v) dstOid srcOid none hne]
          exact lookupObj_setObj_same t.alive dstOid vd v hld
        · exact lookupObj_setObj_same (setObj t.alive dstOid v) srcOid v none hX

def opsWitness : List OwnerOp :=
  [.construct 0 true, .moveConstruct 1 0, .construct 2 false,
   .moveAssign 2 1, .destruct 0, .destruct 1, .destruct 2]

def ownerWitnessState : OwnerState :=
  ⟨[], 1, [0]⟩

theorem graph_move_only_exactly_once_witness :
    run initState opsWitness = some ownerWitnessState ∧
    ownerWitnessState.alive = [] ∧
    ownerWitnessState.destroyLog.count 0 = 1 ∧
    (lookupObj [(2, some 0), (1, none), (0, none)] 2 = some (some 0) ∧
     lookupObj [(2, some 0), (1, none), (0, none)] 1 = some none) :=
  ⟨by decide, rfl,
   (graph_move_only_exactly_once opsWitness ownerWitnessState (by decide) rfl).1
     0 (by decide),
   (graph_move_only_exactly_once opsWitness ownerWitnessState (by decide) rfl).2.2
     ⟨[(2, none), (1, some 0), (0, none)], 1, []⟩
     ⟨[(2, some 0), (1, none), (0, none)], 1, []⟩
     2 1 (some 0) (by decide) (by decide) (by decide)⟩

/-- C10: Move-assigning a `bbx::Graph` to itself is safe and is the
identity: for every live wrapper object, whether its handle is null or
not, self move-assignment leaves the whole program state unchanged — the
object keeps its handle and no `bbx_graph_destroy` call is made. -/
theorem move_assign_self_is_identity (s : OwnerState) (oid : Nat) (v : Option Nat)
    (hl : lookupObj s.alive oid = some v) :
    step s (.moveAssign oid oid) = some s := by
  simp [step, hl]

def selfAssignState : OwnerState :=
  ⟨[(0, some 7)], 8, []⟩

theorem move_assign_self_is_identity_witness :
    step selfAssignState (.moveAssign 0 0) = some selfAssignState ∧
    selfAssignState.destroyLog = [] :=
  ⟨move_assign_self_is_identity selfAssignState 0 (some 7) rfl, rfl⟩
